import Mathlib

set_option maxRecDepth 40000

/-!
Verification development for the Telegram-Toolkit repository.

Python byte strings are modelled as `List Nat` with every element `< 256`;
Python text strings are modelled by the `List Nat` of their UTF-8 bytes
(UTF-8 encoding is injective, so equality of texts is equality of their
byte lists).  The AES-256 block cipher and the PBKDF2 key-derivation
function are external library primitives of the source; they are modelled
abstractly as parameters bundled with the laws the pipeline relies on
(a keyed 16-byte block permutation), while every piece of logic written in
the repository itself — padding, CBC chaining, base64, header layout,
prefix handling, the clone loop, the session manager state — is embedded
directly from the source.
-/

namespace TGTK

/-- Bytewise xor of two byte lists (`bytes(a ^ b for ...)`). -/
def xorB (a b : List Nat) : List Nat := List.zipWith (fun x y => x ^^^ y) a b

/-- All elements of the list are valid byte values. -/
def bytesLt (l : List Nat) : Prop := ∀ x ∈ l, x < 256

instance (l : List Nat) : Decidable (bytesLt l) := by
  unfold bytesLt; infer_instance

instance {ε α : Type} [DecidableEq ε] [DecidableEq α] : DecidableEq (Except ε α) :=
  fun a b =>
    match a, b with
    | .error x, .error y =>
      if h : x = y then isTrue (by rw [h]) else
        isFalse (fun hh => by cases hh; exact h rfl)
    | .ok x, .ok y =>
      if h : x = y then isTrue (by rw [h]) else
        isFalse (fun hh => by cases hh; exact h rfl)
    | .error _, .ok _ => isFalse (fun hh => by cases hh)
    | .ok _, .error _ => isFalse (fun hh => by cases hh)

/-- PKCS7 padding for a 128-bit block size, as applied by
`padding.PKCS7(128).padder()`: append `n = 16 - len % 16` copies of the
byte `n` (note `n ∈ [1,16]`). -/
def pkcs7pad (d : List Nat) : List Nat :=
  d ++ List.replicate (16 - d.length % 16) (16 - d.length % 16)

/-- PKCS7 unpadding for a 128-bit block size, as applied by
`padding.PKCS7(128).unpadder()`: the data must be a non-zero multiple of
16 bytes, the last byte `n` must lie in `[1,16]`, and the last `n` bytes
must all equal `n`; otherwise the unpadder raises (here: `none`). -/
def pkcs7unpad (d : List Nat) : Option (List Nat) :=
  if d.length = 0 ∨ d.length % 16 ≠ 0 then none
  else
    let n := d.getLast?.getD 0
    if n = 0 ∨ 16 < n then none
    else if d.drop (d.length - n) = List.replicate n n then
      some (d.take (d.length - n))
    else none

/-- Fuel-driven worker for `chunks16`; the fuel is an upper bound on the
list length, so the hole case is never reached from `chunks16`. -/
def chunks16Go : Nat → List Nat → List (List Nat)
  | _, [] => []
  | 0, _ :: _ => []
  | f + 1, a :: rest => ((a :: rest).take 16) :: chunks16Go f ((a :: rest).drop 16)

/-- Split a byte list into consecutive 16-byte blocks (the block
structure AES-CBC operates on; the final block may be short only on
ill-formed input). -/
def chunks16 (l : List Nat) : List (List Nat) := chunks16Go l.length l

/-- CBC encryption over a block list: `cᵢ = E (pᵢ xor cᵢ₋₁)`, seeded with
the IV. -/
def cbcEncB (E : List Nat → List Nat) : List Nat → List (List Nat) → List (List Nat)
  | _, [] => []
  | prev, b :: bs =>
    let c := E (xorB prev b)
    c :: cbcEncB E c bs

/-- CBC decryption over a block list: `pᵢ = D cᵢ xor cᵢ₋₁`. -/
def cbcDecB (D : List Nat → List Nat) : List Nat → List (List Nat) → List (List Nat)
  | _, [] => []
  | prev, c :: cs => xorB prev (D c) :: cbcDecB D c cs

/-- Flat-bytes CBC encryption as performed by
`Cipher(algorithms.AES(key), modes.CBC(iv)).encryptor()`. -/
def cbcEncrypt (enc : List Nat → List Nat → List Nat) (key iv data : List Nat) : List Nat :=
  (cbcEncB (enc key) iv (chunks16 data)).flatten

/-- Flat-bytes CBC decryption as performed by the matching `decryptor()`. -/
def cbcDecrypt (dec : List Nat → List Nat → List Nat) (key iv data : List Nat) : List Nat :=
  (cbcDecB (dec key) iv (chunks16 data)).flatten

/-- Abstract model of the AES-256 block cipher used through the
`cryptography` library: a keyed permutation of 16-byte blocks.  The three
laws are the facts about AES the repository's pipelines rely on. -/
structure AESModel where
  enc : List Nat → List Nat → List Nat
  dec : List Nat → List Nat → List Nat
  enc_len : ∀ k b, b.length = 16 → (enc k b).length = 16
  enc_lt : ∀ k b, b.length = 16 → bytesLt b → bytesLt (enc k b)
  dec_enc : ∀ k b, b.length = 16 → dec k (enc k b) = b

/-- Character code of the standard base64 alphabet at index `i < 64`. -/
def b64c (i : Nat) : Nat :=
  if i < 26 then 65 + i
  else if i < 52 then 97 + (i - 26)
  else if i < 62 then 48 + (i - 52)
  else if i = 62 then 43
  else 47

/-- Inverse of the base64 alphabet: the 6-bit value of a character code,
or `none` for a character outside the alphabet (`=` is handled by the
decoder itself). -/
def b64v (c : Nat) : Option Nat :=
  if 65 ≤ c ∧ c ≤ 90 then some (c - 65)
  else if 97 ≤ c ∧ c ≤ 122 then some (c - 97 + 26)
  else if 48 ≤ c ∧ c ≤ 57 then some (c - 48 + 52)
  else if c = 43 then some 62
  else if c = 47 then some 63
  else none

/-- `base64.b64encode`, modelled over byte lists: each 3-byte group maps
to 4 alphabet characters; a trailing 1- or 2-byte group is completed with
`=` (character code 61). -/
def base64Encode : List Nat → List Nat
  | [] => []
  | [a] => [b64c (a / 4), b64c (a % 4 * 16), 61, 61]
  | [a, b] => [b64c (a / 4), b64c (a % 4 * 16 + b / 16), b64c (b % 16 * 4), 61]
  | a :: b :: c :: rest =>
    b64c (a / 4) :: b64c (a % 4 * 16 + b / 16) :: b64c (b % 16 * 4 + c / 64) ::
      b64c (c % 64) :: base64Encode rest

/-- `base64.b64decode`, modelled over byte lists: consumes the input in
4-character groups, honouring `=` padding in the final group; anything
else is malformed and raises (here: `none`). -/
def base64Decode : List Nat → Option (List Nat)
  | [] => some []
  | c1 :: c2 :: c3 :: c4 :: rest =>
    (b64v c1).bind (fun v1 =>
      (b64v c2).bind (fun v2 =>
        if c3 = 61 then
          if c4 = 61 ∧ rest = [] then some [v1 * 4 + v2 / 16] else none
        else
          (b64v c3).bind (fun v3 =>
            if c4 = 61 then
              if rest = [] then some [v1 * 4 + v2 / 16, v2 % 16 * 16 + v3 / 4] else none
            else
              (b64v c4).bind (fun v4 =>
                (base64Decode rest).map
                  (fun ds =>
                    (v1 * 4 + v2 / 16) :: (v2 % 16 * 16 + v3 / 4) ::
                      (v3 % 4 * 64 + v4) :: ds)))))
  | _ => none

/-- A UTF-8 continuation byte. -/
def isCont (b : Nat) : Bool := 128 ≤ b && b ≤ 191

/-- Strict UTF-8 validity of a byte list, as enforced by Python's
`bytes.decode('utf-8')`: rejects overlong encodings, surrogates and
code points above `U+10FFFF`. -/
def utf8Valid : List Nat → Bool
  | [] => true
  | b :: rest =>
    if b ≤ 127 then utf8Valid rest
    else if 194 ≤ b && b ≤ 223 then
      match rest with
      | b2 :: r => isCont b2 && utf8Valid r
      | [] => false
    else if b = 224 then
      match rest with
      | b2 :: b3 :: r => (160 ≤ b2 && b2 ≤ 191) && isCont b3 && utf8Valid r
      | _ => false
    else if (225 ≤ b && b ≤ 236) || b = 238 || b = 239 then
      match rest with
      | b2 :: b3 :: r => isCont b2 && isCont b3 && utf8Valid r
      | _ => false
    else if b = 237 then
      match rest with
      | b2 :: b3 :: r => (128 ≤ b2 && b2 ≤ 159) && isCont b3 && utf8Valid r
      | _ => false
    else if b = 240 then
      match rest with
      | b2 :: b3 :: b4 :: r => (144 ≤ b2 && b2 ≤ 191) && isCont b3 && isCont b4 && utf8Valid r
      | _ => false
    else if 241 ≤ b && b ≤ 243 then
      match rest with
      | b2 :: b3 :: b4 :: r => isCont b2 && isCont b3 && isCont b4 && utf8Valid r
      | _ => false
    else if b = 244 then
      match rest with
      | b2 :: b3 :: b4 :: r => (128 ≤ b2 && b2 ≤ 143) && isCont b3 && isCont b4 && utf8Valid r
      | _ => false
    else false

namespace MessageEncryption

/-- UTF-8 bytes of `MessageEncryption.ENCRYPTED_PREFIX`, the lock-emoji
marker prepended to every encrypted text (one Python character, four
bytes). -/
def encryptedMarker : List Nat := [240, 159, 148, 146]

/-- `MessageEncryption.encrypt_text`: empty text is returned unchanged;
otherwise the UTF-8 bytes are PKCS7-padded, AES-256-CBC encrypted under
the key derived from password and chat id, prefixed with the IV,
base64-encoded and prefixed with the marker character.
`dk` models `derive_key` (PBKDF2 over password and chat-id salt) and
`iv` the fresh random IV drawn by `secrets.token_bytes(16)`. -/
def encrypt_text (A : AESModel) (dk : String → Int → List Nat) (iv : List Nat)
    (text : List Nat) (password : String) (chatId : Int) : List Nat :=
  if text = [] then text
  else
    encryptedMarker ++
      base64Encode (iv ++ cbcEncrypt A.enc (dk password chatId) iv (pkcs7pad text))

/-- Failure stages of the `try` block of `decrypt_text`. -/
inductive DecError
  | badBase64
  | badLength
  | badPadding
  | badUtf8
deriving DecidableEq, Repr

/-- UTF-8 bytes of the exception text each failure stage produces
(`str(e)` of the raised exception). -/
def decErrMsg : DecError → List Nat
  | .badBase64 =>
    -- "Invalid base64-encoded string"
    [73, 110, 118, 97, 108, 105, 100, 32, 98, 97, 115, 101, 54, 52, 45, 101,
     110, 99, 111, 100, 101, 100, 32, 115, 116, 114, 105, 110, 103]
  | .badLength =>
    -- "The length of the provided data is not a multiple of the block length."
    [84, 104, 101, 32, 108, 101, 110, 103, 116, 104, 32, 111, 102, 32, 116,
     104, 101, 32, 112, 114, 111, 118, 105, 100, 101, 100, 32, 100, 97, 116,
     97, 32, 105, 115, 32, 110, 111, 116, 32, 97, 32, 109, 117, 108, 116,
     105, 112, 108, 101, 32, 111, 102, 32, 116, 104, 101, 32, 98, 108, 111,
     99, 107, 32, 108, 101, 110, 103, 116, 104, 46]
  | .badPadding =>
    -- "Invalid padding bytes."
    [73, 110, 118, 97, 108, 105, 100, 32, 112, 97, 100, 100, 105, 110, 103,
     32, 98, 121, 116, 101, 115, 46]
  | .badUtf8 =>
    -- "invalid utf-8 sequence"
    [105, 110, 118, 97, 108, 105, 100, 32, 117, 116, 102, 45, 56, 32, 115,
     101, 113, 117, 101, 110, 99, 101]

/-- UTF-8 bytes of `"[Encrypted - Decryption failed: "`, the opening of
the placeholder returned by `decrypt_text`'s exception handler. -/
def decFailedOpen : List Nat :=
  [91, 69, 110, 99, 114, 121, 112, 116, 101, 100, 32, 45, 32, 68, 101, 99,
   114, 121, 112, 116, 105, 111, 110, 32, 102, 97, 105, 108, 101, 100, 58, 32]

/-- The placeholder `f"[Encrypted - Decryption failed: {str(e)}]"`. -/
def placeholder (msg : List Nat) : List Nat := decFailedOpen ++ msg ++ [93]

/-- The `try` block of `decrypt_text`: strip the one-character marker
(4 UTF-8 bytes), base64-decode, split IV (first 16 bytes) from
ciphertext, CBC-decrypt under the derived key, strip PKCS7 padding and
UTF-8-decode.  Each stage's exception is reported as a `DecError`. -/
def decryptAttempt (A : AESModel) (dk : String → Int → List Nat)
    (input : List Nat) (password : String) (chatId : Int) : Except DecError (List Nat) :=
  match base64Decode (input.drop 4) with
  | none => .error .badBase64
  | some combined =>
    let iv := combined.take 16
    let ct := combined.drop 16
    if ct.length % 16 ≠ 0 then .error .badLength
    else
      match pkcs7unpad (cbcDecrypt A.dec (dk password chatId) iv ct) with
      | none => .error .badPadding
      | some data => if utf8Valid data then .ok data else .error .badUtf8

/-- `MessageEncryption.decrypt_text`: input that is empty or does not
start with the marker is returned as-is; otherwise the decryption attempt
runs and any exception is converted to the placeholder string. -/
def decrypt_text (A : AESModel) (dk : String → Int → List Nat)
    (input : List Nat) (password : String) (chatId : Int) : List Nat :=
  if input.isEmpty || !(encryptedMarker.isPrefixOf input) then input
  else
    match decryptAttempt A dk input password chatId with
    | .ok data => data
    | .error e => placeholder (decErrMsg e)

end MessageEncryption

namespace EncryptionService

/-- `EncryptionService.MAGIC_HEADER`, the ASCII bytes of `"TGBAK01"`. -/
def MAGIC_HEADER : List Nat := [84, 71, 66, 65, 75, 48, 49]

/-- `EncryptionService.encrypt_data`: `MAGIC + SALT(32) + IV(16) +
AES-256-CBC(PKCS7(data))` under the key PBKDF2-derived from the password
and salt.  `dks` models `derive_key`; `salt` and `iv` model the fresh
random bytes drawn by `secrets.token_bytes`. -/
def encrypt_data (A : AESModel) (dks : String → List Nat → List Nat)
    (salt iv : List Nat) (data : List Nat) (password : String) : List Nat :=
  MAGIC_HEADER ++ salt ++ iv ++ cbcEncrypt A.enc (dks password salt) iv (pkcs7pad data)

/-- `EncryptionService.decrypt_data`: verify the magic header, slice the
salt at offset 7, the IV at offset 39 and the ciphertext at offset 55,
re-derive the key and CBC-decrypt, then strip PKCS7 padding.  Failures
raise (here: `.error` with the exception text). -/
def decrypt_data (A : AESModel) (dks : String → List Nat → List Nat)
    (input : List Nat) (password : String) : Except String (List Nat) :=
  if MAGIC_HEADER.isPrefixOf input then
    let salt := (input.drop 7).take 32
    let iv := (input.drop 39).take 16
    let ct := input.drop 55
    if ct.length % 16 ≠ 0 then
      .error "The length of the provided data is not a multiple of the block length."
    else
      match pkcs7unpad (cbcDecrypt A.dec (dks password salt) iv ct) with
      | none => .error "Invalid padding bytes."
      | some d => .ok d
  else .error "Invalid encrypted backup format"

end EncryptionService

namespace CloneService

/-- The fields of a fetched Telegram message that `clone_chat` inspects. -/
structure CloneMsg where
  id : Int
  date : Int
  text : String
  hasMedia : Bool
deriving DecidableEq, Repr

/-- Outcome of `client.download_media`: a usable path, a missing/`None`
result, or a raised exception. -/
inductive DownloadRes
  | ok
  | missing
  | err (e : String)
deriving DecidableEq, Repr

/-- Deterministic model of the transport and callback behaviour during
one `clone_chat` invocation: for each message id, whether
`send_message` / `send_file` / `download_media` raise, and whether the
caller's `on_progress` callback raises at a given progress value
(`none` everywhere models a callback that is absent or never fails). -/
structure Transport where
  sendMsgErr : Int → Option String
  sendFileErr : Int → Option String
  download : Int → DownloadRes
  onProgressErr : Nat → Option String

/-- Observable calls made while cloning, in order. -/
inductive TEvent
  | getClient
  | getMessages (chat : Int)
  | sendMessage (chat : Int) (mid : Int)
  | sendFile (chat : Int) (mid : Int)
  | downloadMedia (mid : Int)
  | sleep
  | progressUpd (cur : Nat)
deriving DecidableEq, Repr

/-- `CloneService._send_with_media`: download the media and send it as a
file; a missing download falls back to sending the caption; any exception
inside the `try` is caught and answered by re-sending the caption, whose
own failure propagates to the caller.  Returns the calls made and the
exception that escaped, if any. -/
def sendWithMedia (T : Transport) (target : Int) (m : CloneMsg) (caption : String) :
    List TEvent × Option String :=
  match T.download m.id with
  | .err _ =>
    -- download_media raised: the handler sends the caption, and that
    -- send's failure is not caught
    if caption ≠ "" then
      ([.downloadMedia m.id, .sendMessage target m.id], T.sendMsgErr m.id)
    else ([.downloadMedia m.id], none)
  | .ok =>
    match T.sendFileErr m.id with
    | none => ([.downloadMedia m.id, .sendFile target m.id], none)
    | some _ =>
      -- send_file raised: the handler falls back to the caption
      if caption ≠ "" then
        ([.downloadMedia m.id, .sendFile target m.id, .sendMessage target m.id],
         T.sendMsgErr m.id)
      else ([.downloadMedia m.id, .sendFile target m.id], none)
  | .missing =>
    if caption ≠ "" then
      match T.sendMsgErr m.id with
      | none => ([.downloadMedia m.id, .sendMessage target m.id], none)
      | some e =>
        -- the in-line caption send raised: the handler retries it, and
        -- the retry's failure propagates
        ([.downloadMedia m.id, .sendMessage target m.id, .sendMessage target m.id], some e)
    else ([.downloadMedia m.id], none)

/-- `CloneService._send_encrypted_media`: identical call structure to
`_send_with_media`, with the media bytes encrypted before upload and the
encrypted caption used in the fallbacks. -/
def sendEncryptedMedia (T : Transport) (target : Int) (m : CloneMsg) (encCaption : String) :
    List TEvent × Option String :=
  match T.download m.id with
  | .err _ =>
    if encCaption ≠ "" then
      ([.downloadMedia m.id, .sendMessage target m.id], T.sendMsgErr m.id)
    else ([.downloadMedia m.id], none)
  | .ok =>
    match T.sendFileErr m.id with
    | none => ([.downloadMedia m.id, .sendFile target m.id], none)
    | some _ =>
      if encCaption ≠ "" then
        ([.downloadMedia m.id, .sendFile target m.id, .sendMessage target m.id],
         T.sendMsgErr m.id)
      else ([.downloadMedia m.id, .sendFile target m.id], none)
  | .missing =>
    if encCaption ≠ "" then
      match T.sendMsgErr m.id with
      | none => ([.downloadMedia m.id, .sendMessage target m.id], none)
      | some e =>
        ([.downloadMedia m.id, .sendMessage target m.id, .sendMessage target m.id], some e)
    else ([.downloadMedia m.id], none)

/-- `CloneService._clone_forward_mode`: media (when included) goes through
`_send_with_media`, otherwise non-empty text is re-posted. -/
def cloneForwardMode (T : Transport) (target : Int) (m : CloneMsg) (includeMedia : Bool) :
    List TEvent × Option String :=
  if m.hasMedia && includeMedia then sendWithMedia T target m m.text
  else if m.text ≠ "" then ([.sendMessage target m.id], T.sendMsgErr m.id)
  else ([], none)

/-- `CloneService._clone_reupload_mode`: same call structure as forward
mode (the difference — a managed temp directory — is not observable
here). -/
def cloneReuploadMode (T : Transport) (target : Int) (m : CloneMsg) (includeMedia : Bool) :
    List TEvent × Option String :=
  if m.hasMedia && includeMedia then sendWithMedia T target m m.text
  else if m.text ≠ "" then ([.sendMessage target m.id], T.sendMsgErr m.id)
  else ([], none)

/-- `CloneService._clone_encrypted_mode`: the text is encrypted first
(`encrypt_text` maps empty text to empty and non-empty text to a
non-empty marker-prefixed string, so the control flow tests the same
emptiness as the plain text); media goes through
`_send_encrypted_media` with the encrypted caption. -/
def cloneEncryptedMode (T : Transport) (target : Int) (m : CloneMsg) (includeMedia : Bool) :
    List TEvent × Option String :=
  if m.hasMedia && includeMedia then sendEncryptedMedia T target m m.text
  else if m.text ≠ "" then ([.sendMessage target m.id], T.sendMsgErr m.id)
  else ([], none)

/-- Mode dispatch of the loop body of `clone_chat` (any unknown mode
falls through to re-upload, per the final `else`). -/
def processMsg (T : Transport) (target : Int) (mode : String) (includeMedia : Bool)
    (m : CloneMsg) : List TEvent × Option String :=
  if mode = "forward" then cloneForwardMode T target m includeMedia
  else if mode = "encrypted" then cloneEncryptedMode T target m includeMedia
  else cloneReuploadMode T target m includeMedia

/-- The error-log entry `f"Message {msg.id}: {str(e)}"`. -/
def errEntry (mid : Int) (e : String) : String :=
  "Message " ++ toString mid ++ ": " ++ e

/-- The per-message loop of `clone_chat`.  For each message, in order:
progress is updated to `i+1`; a raising `on_progress` callback is caught
by the handler and logged; a message with no text and no media is
skipped; otherwise the mode handler runs, a success is counted and
followed by `asyncio.sleep(delay_seconds)`, and a raised exception is
caught, logged as `errEntry`, and the loop continues.
Arguments after the message list: current index, cloned count, skipped
count, error log, event log. -/
def cloneLoop (T : Transport) (target : Int) (mode : String) (includeMedia : Bool) :
    List CloneMsg → Nat → Nat → Nat → List String → List TEvent →
    Nat × Nat × List String × List TEvent
  | [], _, cl, sk, errs, evs => (cl, sk, errs, evs)
  | m :: rest, i, cl, sk, errs, evs =>
    let evs1 := evs ++ [TEvent.progressUpd (i + 1)]
    match T.onProgressErr (i + 1) with
    | some e =>
      cloneLoop T target mode includeMedia rest (i + 1) cl sk
        (errs ++ [errEntry m.id e]) evs1
    | none =>
      if m.text = "" && !m.hasMedia then
        cloneLoop T target mode includeMedia rest (i + 1) cl (sk + 1) errs evs1
      else
        match processMsg T target mode includeMedia m with
        | (sevs, none) =>
          cloneLoop T target mode includeMedia rest (i + 1) (cl + 1) sk errs
            (evs1 ++ sevs ++ [TEvent.sleep])
        | (sevs, some e) =>
          cloneLoop T target mode includeMedia rest (i + 1) cl sk
            (errs ++ [errEntry m.id e]) (evs1 ++ sevs)

/-- The date filter of `clone_chat`: keep a message unless it is before
`date_from` or after `date_to`. -/
def dateOk (dateFrom dateTo : Option Int) (m : CloneMsg) : Bool :=
  (match dateFrom with
   | some df => decide (df ≤ m.date)
   | none => true) &&
  (match dateTo with
   | some dt => decide (m.date ≤ dt)
   | none => true)

/-- The summary dictionary returned by `clone_chat` (the fields the
claims inspect). -/
structure CloneSummary where
  totalMessages : Nat
  clonedCount : Nat
  skippedCount : Nat
  errors : List String
deriving DecidableEq, Repr

/-- `CloneService.clone_chat`: validate the encrypted-mode password
before anything else; obtain the client; fetch up to 10000 messages in
the transport's newest-first order (`history`); apply the date filter if
any bound is given; reverse into chronological order; run the loop; and
return the summary.  The first component is the full ordered log of
observable calls. -/
def cloneChat (T : Transport) (history : List CloneMsg) (sourceChat targetChat : Int)
    (mode : String) (includeMedia : Bool) (dateFrom dateTo : Option Int)
    (encryptionPassword : Option String) : List TEvent × Except String CloneSummary :=
  if mode = "encrypted" && encryptionPassword.isNone then
    ([], .error "encryption_password required for encrypted mode")
  else
    let fetched := history.take 10000
    let filtered :=
      if dateFrom.isSome || dateTo.isSome then fetched.filter (dateOk dateFrom dateTo)
      else fetched
    let msgs := filtered.reverse
    let r := cloneLoop T targetChat mode includeMedia msgs 0 0 0 []
      [TEvent.getClient, TEvent.getMessages sourceChat]
    (r.2.2.2,
     .ok { totalMessages := msgs.length, clonedCount := r.1, skippedCount := r.2.1,
           errors := r.2.2.1 })

/-- The message ids of the destination send calls, in order. -/
def sendIds : List TEvent → List Int
  | [] => []
  | .sendMessage _ mid :: r => mid :: sendIds r
  | .sendFile _ mid :: r => mid :: sendIds r
  | _ :: r => sendIds r

/-- Number of rate-limiting sleeps in a log. -/
def sleepCount : List TEvent → Nat
  | [] => 0
  | .sleep :: r => sleepCount r + 1
  | _ :: r => sleepCount r

/-- The progress values reported, in order. -/
def progressVals : List TEvent → List Nat
  | [] => []
  | .progressUpd c :: r => c :: progressVals r
  | _ :: r => progressVals r

end CloneService

namespace SessionManager

/-- One value of `SessionManager._pending_auth`: the temporary client
handle, the phone-code hash, the session name and the phone. -/
structure PendingEntry where
  handle : Nat
  phoneCodeHash : String
  name : String
  phone : String
deriving DecidableEq, Repr

/-- The manager's in-memory state: the connected-clients cache
(session id → client handle), the active session, the pending-auth map
and fresh-id counters for handles and database rows. -/
structure SMState where
  clients : List (Nat × Nat)
  activeSession : Option Nat
  pendingAuth : List (String × PendingEntry)
  nextHandle : Nat
  nextSessionId : Nat
deriving DecidableEq, Repr

/-- The empty manager (`SessionManager.__init__`). -/
def initState : SMState :=
  { clients := [], activeSession := none, pendingAuth := [], nextHandle := 0,
    nextSessionId := 0 }

/-- Observable client-handle operations, in order. -/
inductive HEvent
  | connect (h : Nat)
  | sendCodeRequest (h : Nat) (phone : String)
  | signIn (h : Nat) (phone : String)
  | disconnect (h : Nat)
deriving DecidableEq, Repr

/-- Lookup in the pending-auth dictionary. -/
def pendingGet (l : List (String × PendingEntry)) (phone : String) : Option PendingEntry :=
  (l.find? (fun p => p.1 = phone)).map (fun p => p.2)

/-- Python dict assignment `self._pending_auth[phone] = ...`: any prior
binding for the phone is replaced by the new one. -/
def pendingSet (l : List (String × PendingEntry)) (phone : String) (e : PendingEntry) :
    List (String × PendingEntry) :=
  l.filter (fun p => p.1 ≠ phone) ++ [(phone, e)]

/-- `phone[-4:]` for the default session name. -/
def lastFour (s : String) : String :=
  String.mk (s.data.drop (s.data.length - 4))

/-- `SessionManager.request_code`: create a fresh temporary client,
connect it, request the code (`codeHash` models the hash the transport
returns) and store the pending state under the phone — overwriting any
prior entry for the same phone without touching its client.  Returns the
new state, the handle operations performed and the phone-code hash. -/
def request_code (codeHash : String → String) (st : SMState) (phone : String)
    (name : Option String) : SMState × List HEvent × String :=
  let h := st.nextHandle
  let hash := codeHash phone
  let entry : PendingEntry :=
    { handle := h, phoneCodeHash := hash,
      name := name.getD ("Account " ++ lastFour phone), phone := phone }
  ({ st with pendingAuth := pendingSet st.pendingAuth phone entry, nextHandle := h + 1 },
   [HEvent.connect h, HEvent.sendCodeRequest h phone], hash)

/-- `SessionManager.verify_code`: with no pending entry for the phone the
call raises immediately.  Otherwise `sign_in` runs on the pending client
(`signInRes` models its outcome for a phone/code pair): on success the
new session row is persisted, the client cached, the session activated
and the pending entry deleted; on failure the client is disconnected and
the exception re-raised — the pending entry is left in place. -/
def verify_code (signInRes : String → String → Except String Unit) (st : SMState)
    (phone code : String) : SMState × List HEvent × Except String Nat :=
  match pendingGet st.pendingAuth phone with
  | none =>
    (st, [], .error "No pending authentication for this phone. Call request_code first.")
  | some entry =>
    match signInRes phone code with
    | .ok _ =>
      let sid := st.nextSessionId
      ({ st with clients := st.clients ++ [(sid, entry.handle)],
                 activeSession := some sid,
                 pendingAuth := st.pendingAuth.filter (fun p => p.1 ≠ phone),
                 nextSessionId := sid + 1 },
       [HEvent.signIn entry.handle phone], .ok sid)
    | .error e =>
      (st, [HEvent.signIn entry.handle phone, HEvent.disconnect entry.handle], .error e)

/-- Client handles still referenced by the manager state (cached clients
and pending-auth clients).  A connected handle outside this set has been
leaked. -/
def referencedHandles (st : SMState) : List Nat :=
  st.clients.map (fun p => p.2) ++ st.pendingAuth.map (fun p => p.2.handle)

end SessionManager

/-- `x ^^^ y` stays below `2 ^ 8` when both arguments do. -/
theorem xor_lt_256 {x y : Nat} (hx : x < 256) (hy : y < 256) : x ^^^ y < 256 := by
  have h : Nat.bitwise bne x y < 2 ^ 8 :=
    Nat.bitwise_lt (by simpa using hx) (by simpa using hy)
  simpa using h

/-- A concrete conforming instance of the abstract block-cipher model,
used to instantiate witnesses: xor every byte of the block with the
first key byte. -/
def toyAES : AESModel where
  enc := fun k b => b.map (fun x => x ^^^ k.headD 0 % 256)
  dec := fun k b => b.map (fun x => x ^^^ k.headD 0 % 256)
  enc_len := by
    intro k b h
    simpa using h
  enc_lt := by
    intro k b _ hb x hx
    simp only [List.mem_map] at hx
    obtain ⟨y, hy, rfl⟩ := hx
    exact xor_lt_256 (hb y hy) (Nat.mod_lt _ (by norm_num))
  dec_enc := by
    intro k b _
    simp only [List.map_map, Function.comp_def, Nat.xor_cancel_right]
    exact List.map_id b

/-- A concrete key-derivation instance for witnesses: distinct short
passphrases yield distinct single-byte keys. -/
def dkTest : String → Int → List Nat := fun p _ =>
  if p = "x" then [1] else if p = "xy" then [0] else if p = "xyz" then [3] else [2]

/-- A concrete salted key-derivation instance for witnesses. -/
def dksTest : String → List Nat → List Nat := fun p salt =>
  (if p = "pw" then [7] else [9]) ++ salt.take 1

namespace CloneService

/-- A message whose processing performs exactly one successful send:
the per-message transport calls succeed, and either its media is sent
(media present and included) or its non-empty text is. -/
def cleanSend (T : Transport) (inc : Bool) (m : CloneMsg) : Prop :=
  T.sendMsgErr m.id = none ∧ T.sendFileErr m.id = none ∧ T.download m.id = .ok ∧
    ((m.hasMedia && inc) = true ∨ m.text ≠ "")

instance (T : Transport) (inc : Bool) (m : CloneMsg) : Decidable (cleanSend T inc m) := by
  unfold cleanSend; infer_instance

/-- A transport whose calls all succeed (witness instance). -/
def cleanT : Transport :=
  { sendMsgErr := fun _ => none, sendFileErr := fun _ => none,
    download := fun _ => .ok, onProgressErr := fun _ => none }

/-- A transport whose `send_message` fails on one message id (witness
and counterexample instance). -/
def failAtT (bad : Int) (e : String) : Transport :=
  { sendMsgErr := fun i => if i = bad then some e else none,
    sendFileErr := fun _ => none, download := fun _ => .ok,
    onProgressErr := fun _ => none }

end CloneService

namespace SessionManager

/-- A concrete phone-code-hash oracle for the closed session theorems. -/
def hashOracle : String → String := fun p => "hash-" ++ p

/-- A `sign_in` outcome that always fails (wrong code / expired code). -/
def badSignIn : String → String → Except String Unit :=
  fun _ _ => .error "The confirmation code is invalid"

/-- A concrete phone number for the closed session theorems. -/
def phoneA : String := "+15550001111"

end SessionManager

/-! ## Lemmas about the byte-level building blocks -/

theorem pkcs7pad_length_mod (d : List Nat) : (pkcs7pad d).length % 16 = 0 := by
  rw [pkcs7pad, List.length_append, List.length_replicate]
  omega

theorem pkcs7pad_ne_nil (d : List Nat) : pkcs7pad d ≠ [] := by
  intro h
  have h2 := congrArg List.length h
  rw [pkcs7pad, List.length_append, List.length_replicate] at h2
  simp at h2
  omega

/-- PKCS7 round trip: unpadding recovers exactly the padded data. -/
theorem pkcs7unpad_pad (d : List Nat) : pkcs7unpad (pkcs7pad d) = some d := by
  have hmod : d.length % 16 < 16 := Nat.mod_lt _ (by norm_num)
  set n := 16 - d.length % 16 with hn
  have hn1 : 1 ≤ n := by omega
  have hn16 : n ≤ 16 := by omega
  have hlen : (pkcs7pad d).length = d.length + n := by
    simp [pkcs7pad, List.length_append, List.length_replicate]
  have hlast : (pkcs7pad d).getLast? = some n := by
    rw [pkcs7pad, List.getLast?_append, List.getLast?_replicate, if_neg (by omega)]
    rfl
  rw [pkcs7unpad]
  rw [if_neg, hlast]
  · simp only [Option.getD_some]
    rw [if_neg (by omega)]
    rw [hlen]
    have hd : d.length + n - n = d.length := by omega
    rw [hd]
    rw [show (pkcs7pad d).drop d.length = List.replicate n n by
      rw [pkcs7pad]
      exact List.drop_left d (List.replicate n n)]
    rw [if_pos rfl]
    rw [show (pkcs7pad d).take d.length = d by
      rw [pkcs7pad]
      exact List.take_left d (List.replicate n n)]
  · rw [hlen]
    push_neg
    constructor
    · omega
    · omega

theorem pkcs7pad_bytesLt {d : List Nat} (hd : bytesLt d) : bytesLt (pkcs7pad d) := by
  intro x hx
  rw [pkcs7pad, List.mem_append] at hx
  rcases hx with hx | hx
  · exact hd x hx
  · have := List.eq_of_mem_replicate hx
    omega

theorem chunks16Go_fuel : ∀ (f g : Nat) (l : List Nat), l.length ≤ f → l.length ≤ g →
    chunks16Go f l = chunks16Go g l
  | f, g, [], _, _ => by cases f <;> cases g <;> rfl
  | 0, _, a :: rest, hf, _ => by simp at hf
  | _ + 1, 0, a :: rest, _, hg => by simp at hg
  | f + 1, g + 1, a :: rest, hf, hg => by
    simp only [chunks16Go]
    have hlen : ((a :: rest).drop 16).length ≤ f := by
      simp only [List.length_drop, List.length_cons]
      simp only [List.length_cons] at hf
      omega
    have hlen2 : ((a :: rest).drop 16).length ≤ g := by
      simp only [List.length_drop, List.length_cons]
      simp only [List.length_cons] at hg
      omega
    rw [chunks16Go_fuel f g _ hlen hlen2]

/-- The one-step unfolding of `chunks16`. -/
theorem chunks16_eq (l : List Nat) :
    chunks16 l = if l = [] then [] else l.take 16 :: chunks16 (l.drop 16) := by
  cases l with
  | nil => rfl
  | cons a rest =>
    rw [if_neg (by simp)]
    show chunks16Go ((a :: rest).length) (a :: rest) = _
    rw [show (a :: rest).length = rest.length + 1 from by simp]
    rw [chunks16Go]
    rw [chunks16Go_fuel rest.length ((a :: rest).drop 16).length ((a :: rest).drop 16)
      (by simp only [List.length_drop, List.length_cons]; omega) (le_refl _)]
    rfl

theorem chunks16_nil : chunks16 [] = [] := rfl

theorem chunks16_append16 {b : List Nat} (r : List Nat) (hb : b.length = 16) :
    chunks16 (b ++ r) = b :: chunks16 r := by
  have hne : b ++ r ≠ [] := by
    intro h
    have := congrArg List.length h
    simp [hb] at this
  rw [chunks16_eq, if_neg hne]
  rw [show (16 : Nat) = b.length from hb.symm, List.take_left b r, List.drop_left b r]

/-- Re-chunking the concatenation of 16-byte blocks recovers the blocks. -/
theorem chunks16_flatten {bs : List (List Nat)} (h : ∀ b ∈ bs, b.length = 16) :
    chunks16 bs.flatten = bs := by
  induction bs with
  | nil => exact chunks16_nil
  | cons b t ih =>
    rw [List.flatten_cons, chunks16_append16 _ (h b (by simp))]
    rw [ih (fun x hx => h x (by simp [hx]))]

theorem flatten_chunks16 : ∀ l : List Nat, (chunks16 l).flatten = l
  | l => by
    by_cases hne : l = []
    · subst hne
      rfl
    · rw [chunks16_eq, if_neg hne, List.flatten_cons, flatten_chunks16 (l.drop 16)]
      exact List.take_append_drop 16 l
termination_by l => l.length
decreasing_by
  have h2 : 0 < l.length := List.length_pos.mpr hne
  show (List.drop 16 l).length < l.length
  simp only [List.length_drop]
  omega

theorem chunks16_len16 : ∀ {l : List Nat}, l.length % 16 = 0 →
    ∀ b ∈ chunks16 l, b.length = 16
  | l, h => by
    by_cases hne : l = []
    · subst hne
      simp [chunks16_nil]
    · have hpos : 0 < l.length := List.length_pos.mpr hne
      have h16 : 16 ≤ l.length := by omega
      intro b hb
      rw [chunks16_eq, if_neg hne] at hb
      rcases List.mem_cons.mp hb with rfl | hb
      · simp [List.length_take]
        omega
      · exact chunks16_len16 (by simp [List.length_drop]; omega) b hb
termination_by l => l.length
decreasing_by
  simp only [List.length_drop]
  omega

theorem chunks16_bytesLt : ∀ {l : List Nat}, bytesLt l → ∀ b ∈ chunks16 l, bytesLt b
  | l, h => by
    by_cases hne : l = []
    · subst hne
      simp [chunks16_nil]
    · intro b hb
      rw [chunks16_eq, if_neg hne] at hb
      rcases List.mem_cons.mp hb with rfl | hb
      · exact fun x hx => h x (List.mem_of_mem_take hx)
      · exact chunks16_bytesLt (fun x hx => h x (List.mem_of_mem_drop hx)) b hb
termination_by l => l.length
decreasing_by
  have h2 : 0 < l.length := List.length_pos.mpr hne
  simp only [List.length_drop]
  omega

theorem xorB_length (a b : List Nat) : (xorB a b).length = min a.length b.length := by
  simp [xorB]

theorem xorB_cancel {a b : List Nat} (h : a.length = b.length) : xorB a (xorB a b) = b := by
  induction a generalizing b with
  | nil =>
    cases b with
    | nil => rfl
    | cons x t => simp at h
  | cons x t ih =>
    cases b with
    | nil => simp at h
    | cons y u =>
      simp only [List.length_cons] at h
      simp only [xorB, List.zipWith_cons_cons]
      rw [Nat.xor_cancel_left]
      have h2 := ih (b := u) (by omega)
      simp only [xorB] at h2
      rw [h2]

theorem xorB_bytesLt : ∀ {a b : List Nat}, bytesLt a → bytesLt b → bytesLt (xorB a b)
  | [], _, _, _ => by intro x hx; simp [xorB] at hx
  | _ :: _, [], _, _ => by intro x hx; simp [xorB] at hx
  | p :: t, q :: u, ha, hb => by
    intro x hx
    simp only [xorB, List.zipWith_cons_cons, List.mem_cons] at hx
    rcases hx with rfl | hx
    · exact xor_lt_256 (ha p (by simp)) (hb q (by simp))
    · exact xorB_bytesLt (fun z hz => ha z (by simp [hz])) (fun z hz => hb z (by simp [hz])) x hx

/-! ## CBC mode: round trip, lengths, bounds -/

theorem cbcEncB_len (A : AESModel) (k : List Nat) :
    ∀ (bs : List (List Nat)) (prev : List Nat), prev.length = 16 →
      (∀ b ∈ bs, b.length = 16) →
      ∀ c ∈ cbcEncB (A.enc k) prev bs, c.length = 16
  | [], _, _, _ => by intro c hc; simp [cbcEncB] at hc
  | b :: bs, prev, hp, hbs => by
    intro c hc
    simp only [cbcEncB, List.mem_cons] at hc
    rcases hc with rfl | hc
    · exact A.enc_len k _ (by rw [xorB_length, hp, hbs b (by simp)]; rfl)
    · exact cbcEncB_len A k bs _
        (A.enc_len k _ (by rw [xorB_length, hp, hbs b (by simp)]; rfl))
        (fun x hx => hbs x (by simp [hx])) c hc

theorem cbcEncB_bytesLt (A : AESModel) (k : List Nat) :
    ∀ (bs : List (List Nat)) (prev : List Nat), prev.length = 16 → bytesLt prev →
      (∀ b ∈ bs, b.length = 16) → (∀ b ∈ bs, bytesLt b) →
      ∀ c ∈ cbcEncB (A.enc k) prev bs, bytesLt c
  | [], _, _, _, _, _ => by intro c hc; simp [cbcEncB] at hc
  | b :: bs, prev, hp, hpb, hbs, hbsb => by
    intro c hc
    have hx16 : (xorB prev b).length = 16 := by
      rw [xorB_length, hp, hbs b (by simp)]; rfl
    have hxb : bytesLt (xorB prev b) := xorB_bytesLt hpb (hbsb b (by simp))
    simp only [cbcEncB, List.mem_cons] at hc
    rcases hc with rfl | hc
    · exact A.enc_lt k _ hx16 hxb
    · exact cbcEncB_bytesLt A k bs _ (A.enc_len k _ hx16) (A.enc_lt k _ hx16 hxb)
        (fun x hx => hbs x (by simp [hx])) (fun x hx => hbsb x (by simp [hx])) c hc

/-- Block-level CBC round trip. -/
theorem cbcDecB_cbcEncB (A : AESModel) (k : List Nat) :
    ∀ (bs : List (List Nat)) (prev : List Nat), prev.length = 16 →
      (∀ b ∈ bs, b.length = 16) →
      cbcDecB (A.dec k) prev (cbcEncB (A.enc k) prev bs) = bs
  | [], _, _, _ => rfl
  | b :: bs, prev, hp, hbs => by
    have hb16 : b.length = 16 := hbs b (by simp)
    have hx16 : (xorB prev b).length = 16 := by rw [xorB_length, hp, hb16]; rfl
    simp only [cbcEncB, cbcDecB]
    rw [A.dec_enc k _ hx16]
    rw [xorB_cancel (by rw [hp, hb16])]
    rw [cbcDecB_cbcEncB A k bs _ (A.enc_len k _ hx16) (fun x hx => hbs x (by simp [hx]))]

theorem flatten_all16_mod {bs : List (List Nat)} (h : ∀ b ∈ bs, b.length = 16) :
    bs.flatten.length % 16 = 0 := by
  induction bs with
  | nil => simp
  | cons b t ih =>
    rw [List.flatten_cons, List.length_append, h b (by simp)]
    have h2 := ih (fun x hx => h x (by simp [hx]))
    omega

/-- Flat-bytes CBC round trip for full-block data. -/
theorem cbcDecrypt_cbcEncrypt (A : AESModel) (k iv d : List Nat) (hiv : iv.length = 16)
    (hd : d.length % 16 = 0) :
    cbcDecrypt A.dec k iv (cbcEncrypt A.enc k iv d) = d := by
  rw [cbcEncrypt, cbcDecrypt]
  rw [chunks16_flatten (cbcEncB_len A k (chunks16 d) iv hiv (chunks16_len16 hd))]
  rw [cbcDecB_cbcEncB A k (chunks16 d) iv hiv (chunks16_len16 hd)]
  exact flatten_chunks16 d

theorem cbcEncrypt_length_mod (A : AESModel) (k iv d : List Nat) (hiv : iv.length = 16)
    (hd : d.length % 16 = 0) : (cbcEncrypt A.enc k iv d).length % 16 = 0 := by
  rw [cbcEncrypt]
  exact flatten_all16_mod (cbcEncB_len A k (chunks16 d) iv hiv (chunks16_len16 hd))

theorem cbcEncrypt_bytesLt (A : AESModel) (k iv d : List Nat) (hiv : iv.length = 16)
    (hivb : bytesLt iv) (hd : d.length % 16 = 0) (hdb : bytesLt d) :
    bytesLt (cbcEncrypt A.enc k iv d) := by
  rw [cbcEncrypt]
  intro x hx
  rw [List.mem_flatten] at hx
  obtain ⟨c, hc, hxc⟩ := hx
  exact cbcEncB_bytesLt A k (chunks16 d) iv hiv hivb (chunks16_len16 hd)
    (chunks16_bytesLt hdb) c hc x hxc

/-! ## Base64: round trip -/

theorem b64v_b64c : ∀ i, i < 64 → b64v (b64c i) = some i := by decide

theorem b64c_ne_61 : ∀ i, i < 64 → b64c i ≠ 61 := by decide

/-- Decoding inverts encoding on byte lists. -/
theorem base64Decode_encode : ∀ {l : List Nat}, bytesLt l →
    base64Decode (base64Encode l) = some l
  | [], _ => rfl
  | [a], h => by
    have ha : a < 256 := h a (by simp)
    have h1 := b64v_b64c (a / 4) (by omega)
    have h2 := b64v_b64c (a % 4 * 16) (by omega)
    rw [base64Encode]
    simp [base64Decode, h1, h2]
    omega
  | [a, b], h => by
    have ha : a < 256 := h a (by simp)
    have hb : b < 256 := h b (by simp)
    have h1 := b64v_b64c (a / 4) (by omega)
    have h2 := b64v_b64c (a % 4 * 16 + b / 16) (by omega)
    have h3 := b64v_b64c (b % 16 * 4) (by omega)
    have hne := b64c_ne_61 (b % 16 * 4) (by omega)
    rw [base64Encode]
    simp [base64Decode, h1, h2, h3, hne]
    omega
  | a :: b :: c :: d :: rest, h => by
    have ha : a < 256 := h a (by simp)
    have hb : b < 256 := h b (by simp)
    have hc : c < 256 := h c (by simp)
    have ih := base64Decode_encode (l := d :: rest) (fun x hx => h x (by simp [hx]))
    have h1 := b64v_b64c (a / 4) (by omega)
    have h2 := b64v_b64c (a % 4 * 16 + b / 16) (by omega)
    have h3 := b64v_b64c (b % 16 * 4 + c / 64) (by omega)
    have h4 := b64v_b64c (c % 64) (by omega)
    have hne3 := b64c_ne_61 (b % 16 * 4 + c / 64) (by omega)
    have hne4 := b64c_ne_61 (c % 64) (by omega)
    rw [show base64Encode (a :: b :: c :: d :: rest) =
      b64c (a / 4) :: b64c (a % 4 * 16 + b / 16) :: b64c (b % 16 * 4 + c / 64) ::
        b64c (c % 64) :: base64Encode (d :: rest) from rfl]
    simp [base64Decode, h1, h2, h3, h4, hne3, hne4, ih]
    omega
  | [a, b, c], h => by
    have ha : a < 256 := h a (by simp)
    have hb : b < 256 := h b (by simp)
    have hc : c < 256 := h c (by simp)
    have h1 := b64v_b64c (a / 4) (by omega)
    have h2 := b64v_b64c (a % 4 * 16 + b / 16) (by omega)
    have h3 := b64v_b64c (b % 16 * 4 + c / 64) (by omega)
    have h4 := b64v_b64c (c % 64) (by omega)
    have hne3 := b64c_ne_61 (b % 16 * 4 + c / 64) (by omega)
    have hne4 := b64c_ne_61 (c % 64) (by omega)
    rw [show base64Encode [a, b, c] =
      b64c (a / 4) :: b64c (a % 4 * 16 + b / 16) :: b64c (b % 16 * 4 + c / 64) ::
        b64c (c % 64) :: base64Encode [] from rfl]
    simp [base64Decode, h1, h2, h3, h4, hne3, hne4]
    omega

/-! ## Claim C1: message-text round trip -/

/-- C1.  MessageCrypto text round-trip: for every non-empty string `s`
(modelled by its UTF-8 bytes `text`), passphrase `p` and chat id `c`,
`decrypt_text (encrypt_text s p c) p c = s`; and for the empty string,
`encrypt_text "" p c` returns `""` unchanged.  Quantified over every
conforming model `A` of the AES block cipher, every key-derivation
function `dk`, and every 16-byte IV — in particular over the PBKDF2/AES
instance the source uses. -/
theorem c1_text_roundtrip (A : AESModel) (dk : String → Int → List Nat)
    (iv text : List Nat) (p : String) (c : Int)
    (hiv : iv.length = 16) (hivb : bytesLt iv) (htb : bytesLt text)
    (hvalid : utf8Valid text = true) :
    (text ≠ [] →
      MessageEncryption.decrypt_text A dk
        (MessageEncryption.encrypt_text A dk iv text p c) p c = text) ∧
    MessageEncryption.encrypt_text A dk iv [] p c = [] := by
  constructor
  · intro ht
    have hpadmod : (pkcs7pad text).length % 16 = 0 := pkcs7pad_length_mod text
    have hpadb : bytesLt (pkcs7pad text) := pkcs7pad_bytesLt htb
    have hctmod : (cbcEncrypt A.enc (dk p c) iv (pkcs7pad text)).length % 16 = 0 :=
      cbcEncrypt_length_mod A _ iv _ hiv hpadmod
    have hctb : bytesLt (cbcEncrypt A.enc (dk p c) iv (pkcs7pad text)) :=
      cbcEncrypt_bytesLt A _ iv _ hiv hivb hpadmod hpadb
    have hcb : bytesLt (iv ++ cbcEncrypt A.enc (dk p c) iv (pkcs7pad text)) := by
      intro x hx
      rcases List.mem_append.mp hx with hx | hx
      · exact hivb x hx
      · exact hctb x hx
    have h1 : ∀ z : List Nat, (MessageEncryption.encryptedMarker ++ z).drop 4 = z := by
      intro z
      rw [show (4 : Nat) = MessageEncryption.encryptedMarker.length from rfl]
      exact List.drop_left _ _
    have h2 := base64Decode_encode hcb
    have h3 : (iv ++ cbcEncrypt A.enc (dk p c) iv (pkcs7pad text)).take 16 = iv := by
      rw [← hiv]
      exact List.take_left _ _
    have h4 : (iv ++ cbcEncrypt A.enc (dk p c) iv (pkcs7pad text)).drop 16 =
        cbcEncrypt A.enc (dk p c) iv (pkcs7pad text) := by
      rw [← hiv]
      exact List.drop_left _ _
    have h5 : cbcDecrypt A.dec (dk p c) iv (cbcEncrypt A.enc (dk p c) iv (pkcs7pad text)) =
        pkcs7pad text := cbcDecrypt_cbcEncrypt A _ iv _ hiv hpadmod
    have h6 := pkcs7unpad_pad text
    rw [MessageEncryption.encrypt_text, if_neg ht]
    rw [MessageEncryption.decrypt_text]
    rw [if_neg (by simp [MessageEncryption.encryptedMarker])]
    rw [MessageEncryption.decryptAttempt, h1, h2]
    simp only [h3, h4]
    rw [if_neg (by omega)]
    rw [h5, h6]
    simp [hvalid]
  · simp [MessageEncryption.encrypt_text]

/-- C1 witness: the theorem applied to the toy cipher model, a zero IV
and the two-byte text "hi". -/
theorem c1_text_roundtrip_witness :
    MessageEncryption.decrypt_text toyAES dkTest
      (MessageEncryption.encrypt_text toyAES dkTest (List.replicate 16 0) [104, 105] "x" 5)
      "x" 5 = [104, 105] ∧
    MessageEncryption.encrypt_text toyAES dkTest (List.replicate 16 0) [] "x" 5 = [] := by
  have h := c1_text_roundtrip toyAES dkTest (List.replicate 16 0) [104, 105] "x" 5
    (by decide) (by decide) (by decide) (by decide)
  exact ⟨h.1 (by decide), h.2⟩

/-! ## Claim C2: envelope round trip and layout -/

/-- C2.  EnvelopeCrypto round-trip: for every byte payload, password,
32-byte salt and 16-byte IV, `decrypt_data (encrypt_data b p) p = b`;
and `encrypt_data`'s output is laid out as the 7-byte ASCII magic
"TGBAK01", then the 32-byte salt, then the 16-byte IV, then the
AES-256-CBC ciphertext — the fields `decrypt_data` parses at offsets
7, 39 and 55. -/
theorem c2_envelope_roundtrip (A : AESModel) (dks : String → List Nat → List Nat)
    (salt iv data : List Nat) (pw : String)
    (hs : salt.length = 32) (hiv : iv.length = 16) :
    EncryptionService.decrypt_data A dks
      (EncryptionService.encrypt_data A dks salt iv data pw) pw = .ok data ∧
    EncryptionService.encrypt_data A dks salt iv data pw =
      EncryptionService.MAGIC_HEADER ++ salt ++ iv ++
        cbcEncrypt A.enc (dks pw salt) iv (pkcs7pad data) := by
  refine ⟨?_, rfl⟩
  have hpadmod : (pkcs7pad data).length % 16 = 0 := pkcs7pad_length_mod data
  have hctmod : (cbcEncrypt A.enc (dks pw salt) iv (pkcs7pad data)).length % 16 = 0 :=
    cbcEncrypt_length_mod A _ iv _ hiv hpadmod
  have e1 : EncryptionService.encrypt_data A dks salt iv data pw =
      EncryptionService.MAGIC_HEADER ++
        (salt ++ (iv ++ cbcEncrypt A.enc (dks pw salt) iv (pkcs7pad data))) := by
    simp [EncryptionService.encrypt_data, List.append_assoc]
  have e2 : EncryptionService.encrypt_data A dks salt iv data pw =
      (EncryptionService.MAGIC_HEADER ++ salt) ++
        (iv ++ cbcEncrypt A.enc (dks pw salt) iv (pkcs7pad data)) := by
    simp [EncryptionService.encrypt_data, List.append_assoc]
  have e3 : EncryptionService.encrypt_data A dks salt iv data pw =
      (EncryptionService.MAGIC_HEADER ++ salt ++ iv) ++
        cbcEncrypt A.enc (dks pw salt) iv (pkcs7pad data) := by
    simp [EncryptionService.encrypt_data, List.append_assoc]
  have hsalt : ((EncryptionService.encrypt_data A dks salt iv data pw).drop 7).take 32 =
      salt := by
    rw [e1, show (7 : Nat) = EncryptionService.MAGIC_HEADER.length from rfl,
      List.drop_left, ← hs, List.take_left]
  have hivp : ((EncryptionService.encrypt_data A dks salt iv data pw).drop 39).take 16 =
      iv := by
    rw [e2, show (39 : Nat) = (EncryptionService.MAGIC_HEADER ++ salt).length from by
      simp [EncryptionService.MAGIC_HEADER, hs], List.drop_left, ← hiv, List.take_left]
  have hct : (EncryptionService.encrypt_data A dks salt iv data pw).drop 55 =
      cbcEncrypt A.enc (dks pw salt) iv (pkcs7pad data) := by
    rw [e3, show (55 : Nat) = (EncryptionService.MAGIC_HEADER ++ salt ++ iv).length from by
      simp [EncryptionService.MAGIC_HEADER, hs, hiv], List.drop_left]
  rw [EncryptionService.decrypt_data]
  rw [if_pos (by
    rw [e1]
    simp)]
  rw [hsalt, hivp, hct]
  rw [if_neg (by omega)]
  rw [cbcDecrypt_cbcEncrypt A _ iv _ hiv hpadmod, pkcs7unpad_pad]

/-- C2 witness: the theorem applied to the toy cipher model and a
five-byte payload. -/
theorem c2_envelope_roundtrip_witness :
    EncryptionService.decrypt_data toyAES dksTest
      (EncryptionService.encrypt_data toyAES dksTest (List.replicate 32 9)
        (List.replicate 16 1) [1, 2, 3, 4, 5] "pw") "pw" = .ok [1, 2, 3, 4, 5] :=
  (c2_envelope_roundtrip toyAES dksTest (List.replicate 32 9) (List.replicate 16 1)
    [1, 2, 3, 4, 5] "pw" (by decide) (by decide)).1

/-! ## Claim C5: wrong-passphrase decryption -/

/-- C5 counterexample: the claim "`decrypt_text (encrypt_text s p1 c) p2 c`
for `p1 ≠ p2` ... never equals `s`" is false.  Take `s` to be exactly the
placeholder text `"[Encrypted - Decryption failed: Invalid padding bytes.]"`
(a perfectly ordinary non-empty valid string a user can send).  With
distinct passphrases `"x"` and `"xyz"` the decryption attempt fails on
padding — the generic outcome the claim itself relies on — and the
handler's placeholder is then byte-for-byte equal to `s`.  Evaluated on
a conforming cipher instance; the mechanism (the placeholder echoing a
plaintext that spells the placeholder) is independent of the cipher. -/
theorem c5_wrong_passphrase_counterexample :
    MessageEncryption.placeholder (MessageEncryption.decErrMsg .badPadding) ≠ [] ∧
    utf8Valid (MessageEncryption.placeholder (MessageEncryption.decErrMsg .badPadding)) =
      true ∧
    ("x" : String) ≠ "xyz" ∧
    MessageEncryption.decrypt_text toyAES dkTest
      (MessageEncryption.encrypt_text toyAES dkTest (List.replicate 16 0)
        (MessageEncryption.placeholder (MessageEncryption.decErrMsg .badPadding)) "x" 0)
      "xyz" 0 =
      MessageEncryption.placeholder (MessageEncryption.decErrMsg .badPadding) := by
  refine ⟨by decide, by decide, by decide, by decide⟩

/-- C5 as amended.  For non-empty `s`, passphrases `p1 ≠ p2` and any
conforming cipher model: `decrypt_text (encrypt_text s p1 c) p2 c` never
raises (the embedding is a total function and every failure of the
attempt is converted to the placeholder); whenever the wrong-passphrase
decryption attempt fails (invalid padding or invalid UTF-8 — the
overwhelmingly likely outcome the spec presumes), the result is exactly
the human-readable placeholder `"[Encrypted - Decryption failed: ...]"`;
and it differs from `s` provided `s` does not itself begin with the
placeholder opening — the case the counterexample shows must be
excluded. -/
theorem c5_wrong_passphrase_amended (A : AESModel) (dk : String → Int → List Nat)
    (iv s : List Nat) (p1 p2 : String) (c : Int) (e : MessageEncryption.DecError)
    (hs : s ≠ []) (_hp : p1 ≠ p2)
    (hfail : MessageEncryption.decryptAttempt A dk
      (MessageEncryption.encrypt_text A dk iv s p1 c) p2 c = .error e)
    (hshape : MessageEncryption.decFailedOpen.isPrefixOf s = false) :
    MessageEncryption.decrypt_text A dk
      (MessageEncryption.encrypt_text A dk iv s p1 c) p2 c =
      MessageEncryption.placeholder (MessageEncryption.decErrMsg e) ∧
    MessageEncryption.decrypt_text A dk
      (MessageEncryption.encrypt_text A dk iv s p1 c) p2 c ≠ s := by
  have henc : MessageEncryption.encrypt_text A dk iv s p1 c =
      MessageEncryption.encryptedMarker ++
        base64Encode (iv ++ cbcEncrypt A.enc (dk p1 c) iv (pkcs7pad s)) := by
    rw [MessageEncryption.encrypt_text, if_neg hs]
  have hres : MessageEncryption.decrypt_text A dk
      (MessageEncryption.encrypt_text A dk iv s p1 c) p2 c =
      MessageEncryption.placeholder (MessageEncryption.decErrMsg e) := by
    rw [MessageEncryption.decrypt_text,
      if_neg (by rw [henc]; simp [MessageEncryption.encryptedMarker]), hfail]
  refine ⟨hres, ?_⟩
  rw [hres]
  intro habs
  have hpre : MessageEncryption.decFailedOpen.isPrefixOf s = true := by
    rw [← habs, MessageEncryption.placeholder, List.append_assoc]
    simp [List.isPrefixOf_iff_prefix]
  rw [hpre] at hshape
  exact Bool.noConfusion hshape

/-- C5 amended witness: toy cipher model, `p1 = "x"`, `p2 = "xy"`,
`s = "hi"`; the wrong-passphrase attempt concretely fails on padding and
the placeholder is returned. -/
theorem c5_wrong_passphrase_amended_witness :
    MessageEncryption.decrypt_text toyAES dkTest
      (MessageEncryption.encrypt_text toyAES dkTest (List.replicate 16 0) [104, 105] "x" 0)
      "xy" 0 =
      MessageEncryption.placeholder (MessageEncryption.decErrMsg .badPadding) ∧
    MessageEncryption.decrypt_text toyAES dkTest
      (MessageEncryption.encrypt_text toyAES dkTest (List.replicate 16 0) [104, 105] "x" 0)
      "xy" 0 ≠ [104, 105] :=
  c5_wrong_passphrase_amended toyAES dkTest (List.replicate 16 0) [104, 105] "x" "xy" 0
    .badPadding (by decide) (by decide) (by decide) (by decide)

/-! ## Clone-engine lemmas -/

namespace CloneService

theorem sendIds_append (a b : List TEvent) : sendIds (a ++ b) = sendIds a ++ sendIds b := by
  induction a with
  | nil => rfl
  | cons e t ih => cases e <;> simp [sendIds, ih]

theorem sleepCount_append (a b : List TEvent) :
    sleepCount (a ++ b) = sleepCount a + sleepCount b := by
  induction a with
  | nil => simp [sleepCount]
  | cons e t ih =>
    cases e <;> simp [sleepCount, ih]
    omega

theorem progressVals_append (a b : List TEvent) :
    progressVals (a ++ b) = progressVals a ++ progressVals b := by
  induction a with
  | nil => rfl
  | cons e t ih => cases e <;> simp [progressVals, ih]

/-- The media helpers emit neither sleeps nor progress updates. -/
theorem sendWithMedia_events (T : Transport) (target : Int) (m : CloneMsg) (c : String) :
    sleepCount (sendWithMedia T target m c).1 = 0 ∧
    progressVals (sendWithMedia T target m c).1 = [] := by
  rw [sendWithMedia]
  rcases T.download m.id with _ | _ | e <;>
    rcases T.sendFileErr m.id with _ | e2 <;>
    rcases T.sendMsgErr m.id with _ | e3 <;>
    by_cases hc : c = "" <;>
    simp [hc, sleepCount, progressVals]

theorem sendEncryptedMedia_events (T : Transport) (target : Int) (m : CloneMsg) (c : String) :
    sleepCount (sendEncryptedMedia T target m c).1 = 0 ∧
    progressVals (sendEncryptedMedia T target m c).1 = [] := by
  rw [sendEncryptedMedia]
  rcases T.download m.id with _ | _ | e <;>
    rcases T.sendFileErr m.id with _ | e2 <;>
    rcases T.sendMsgErr m.id with _ | e3 <;>
    by_cases hc : c = "" <;>
    simp [hc, sleepCount, progressVals]

/-- The per-message mode handlers emit neither sleeps nor progress
updates; those come only from the loop itself. -/
theorem processMsg_events (T : Transport) (target : Int) (mode : String) (inc : Bool)
    (m : CloneMsg) :
    sleepCount (processMsg T target mode inc m).1 = 0 ∧
    progressVals (processMsg T target mode inc m).1 = [] := by
  rw [processMsg]
  by_cases h1 : mode = "forward" <;> by_cases h2 : mode = "encrypted" <;>
    simp only [h1, h2, if_pos, if_neg, if_true, if_false] <;>
    first
    | (rw [cloneForwardMode]
       by_cases hm : (m.hasMedia && inc) = true
       · simp only [hm, if_pos]
         exact sendWithMedia_events T target m m.text
       · by_cases ht : m.text ≠ "" <;> simp [hm, ht, sleepCount, progressVals])
    | (rw [cloneEncryptedMode]
       by_cases hm : (m.hasMedia && inc) = true
       · simp only [hm, if_pos]
         exact sendEncryptedMedia_events T target m m.text
       · by_cases ht : m.text ≠ "" <;> simp [hm, ht, sleepCount, progressVals])
    | (rw [cloneReuploadMode]
       by_cases hm : (m.hasMedia && inc) = true
       · simp only [hm, if_pos]
         exact sendWithMedia_events T target m m.text
       · by_cases ht : m.text ≠ "" <;> simp [hm, ht, sleepCount, progressVals])

/-- A message satisfying `cleanSend` is processed with no escaping
exception and exactly one destination send, carrying its id. -/
theorem processMsg_clean (T : Transport) (target : Int) (mode : String) (inc : Bool)
    (m : CloneMsg) (hc : cleanSend T inc m) :
    (processMsg T target mode inc m).2 = none ∧
    sendIds (processMsg T target mode inc m).1 = [m.id] := by
  obtain ⟨h1, h2, h3, h4⟩ := hc
  have hfwd : ∀ f : List TEvent × Option String,
      f = cloneForwardMode T target m inc ∨ f = cloneReuploadMode T target m inc ∨
        f = cloneEncryptedMode T target m inc →
      f.2 = none ∧ sendIds f.1 = [m.id] := by
    intro f hf
    have hbody : f = (if m.hasMedia && inc then
        ([TEvent.downloadMedia m.id, TEvent.sendFile target m.id], none)
      else ([TEvent.sendMessage target m.id], T.sendMsgErr m.id)) := by
      rcases hf with rfl | rfl | rfl <;>
        · by_cases hm : (m.hasMedia && inc) = true
          · simp only [cloneForwardMode, cloneReuploadMode, cloneEncryptedMode, hm, if_pos,
              if_true, sendWithMedia, sendEncryptedMedia, h3, h2]
          · have ht : m.text ≠ "" := h4.resolve_left hm
            simp [cloneForwardMode, cloneReuploadMode, cloneEncryptedMode, hm, ht]
    rw [hbody]
    by_cases hm : (m.hasMedia && inc) = true <;> simp [hm, h1, sendIds]
  rw [processMsg]
  by_cases hf : mode = "forward"
  · simp only [hf, if_pos, if_true]
    exact hfwd _ (Or.inl rfl)
  · rw [if_neg hf]
    by_cases he : mode = "encrypted"
    · simp only [he, if_pos, if_true]
      exact hfwd _ (Or.inr (Or.inr rfl))
    · rw [if_neg he]
      exact hfwd _ (Or.inr (Or.inl rfl))

/-- Every loop iteration adds exactly one to exactly one of the three
counters (cloned, skipped, error-log length). -/
theorem cloneLoop_counts (T : Transport) (target : Int) (mode : String) (inc : Bool) :
    ∀ (msgs : List CloneMsg) (i cl sk : Nat) (errs : List String) (evs : List TEvent),
      (cloneLoop T target mode inc msgs i cl sk errs evs).1 +
        (cloneLoop T target mode inc msgs i cl sk errs evs).2.1 +
        ((cloneLoop T target mode inc msgs i cl sk errs evs).2.2.1).length =
      cl + sk + errs.length + msgs.length := by
  intro msgs
  induction msgs with
  | nil =>
    intro i cl sk errs evs
    simp [cloneLoop]
  | cons m rest ih =>
    intro i cl sk errs evs
    simp only [cloneLoop]
    split
    · rw [ih]
      simp
      omega
    · split
      · rw [ih]
        simp
        omega
      · split
        · rw [ih]
          simp
          omega
        · rw [ih]
          simp
          omega

/-- The loop sleeps exactly once per successfully cloned message:
sleep-count grows in lockstep with the cloned counter. -/
theorem cloneLoop_sleeps (T : Transport) (target : Int) (mode : String) (inc : Bool) :
    ∀ (msgs : List CloneMsg) (i cl sk : Nat) (errs : List String) (evs : List TEvent),
      sleepCount (cloneLoop T target mode inc msgs i cl sk errs evs).2.2.2 + cl =
        sleepCount evs + (cloneLoop T target mode inc msgs i cl sk errs evs).1 := by
  intro msgs
  induction msgs with
  | nil =>
    intro i cl sk errs evs
    simp [cloneLoop, Nat.add_comm]
  | cons m rest ih =>
    intro i cl sk errs evs
    simp only [cloneLoop]
    split
    · rw [ih, sleepCount_append]
      simp [sleepCount]
    · split
      · rw [ih, sleepCount_append]
        simp [sleepCount]
      · split
        · rename_i sevs heq
          have hse := (processMsg_events T target mode inc m).1
          rw [heq] at hse
          simp only [] at hse
          have hi := ih (i + 1) (cl + 1) sk errs
            (evs ++ [TEvent.progressUpd (i + 1)] ++ sevs ++ [TEvent.sleep])
          simp [sleepCount_append, sleepCount, hse] at hi ⊢
          omega
        · rename_i sevs e heq
          have hse := (processMsg_events T target mode inc m).1
          rw [heq] at hse
          simp only [] at hse
          have hi := ih (i + 1) cl sk (errs ++ [errEntry m.id e])
            (evs ++ [TEvent.progressUpd (i + 1)] ++ sevs)
          simp [sleepCount_append, sleepCount, hse] at hi ⊢
          omega

/-- The loop reports progress `1, 2, ..., N` in order, one update per
processed message. -/
theorem cloneLoop_progress (T : Transport) (target : Int) (mode : String) (inc : Bool) :
    ∀ (msgs : List CloneMsg) (i cl sk : Nat) (errs : List String) (evs : List TEvent),
      progressVals (cloneLoop T target mode inc msgs i cl sk errs evs).2.2.2 =
        progressVals evs ++ List.range' (i + 1) msgs.length := by
  intro msgs
  induction msgs with
  | nil =>
    intro i cl sk errs evs
    simp [cloneLoop]
  | cons m rest ih =>
    intro i cl sk errs evs
    simp only [cloneLoop]
    have hr : List.range' (i + 1) (m :: rest).length =
        (i + 1) :: List.range' (i + 2) rest.length := by
      rw [List.length_cons, List.range'_succ]
    split
    · rw [ih, progressVals_append, hr]
      simp [progressVals]
    · split
      · rw [ih, progressVals_append, hr]
        simp [progressVals]
      · split
        · rename_i sevs heq
          have hse := (processMsg_events T target mode inc m).2
          rw [heq] at hse
          simp only [] at hse
          rw [ih, progressVals_append, progressVals_append, progressVals_append, hse, hr]
          simp [progressVals]
        · rename_i sevs e heq
          have hse := (processMsg_events T target mode inc m).2
          rw [heq] at hse
          simp only [] at hse
          rw [ih, progressVals_append, progressVals_append, hse, hr]
          simp [progressVals]

/-- A `cleanSend` message is never skipped by the text/media check. -/
theorem cleanSend_not_skipped {T : Transport} {inc : Bool} {m : CloneMsg}
    (hc : cleanSend T inc m) : (m.text = "" && !m.hasMedia) = false := by
  rcases hc.2.2.2 with h | h
  · have hm : m.hasMedia = true := (Bool.and_eq_true _ _ |>.mp h).1
    simp [hm]
  · simp [h]

/-- With a never-failing `on_progress` and clean sends throughout, the
loop appends exactly one send per message, in list order. -/
theorem cloneLoop_sends (T : Transport) (target : Int) (mode : String) (inc : Bool)
    (hprog : ∀ n, T.onProgressErr n = none) :
    ∀ (msgs : List CloneMsg) (i cl sk : Nat) (errs : List String) (evs : List TEvent),
      (∀ m ∈ msgs, cleanSend T inc m) →
      sendIds (cloneLoop T target mode inc msgs i cl sk errs evs).2.2.2 =
        sendIds evs ++ msgs.map CloneMsg.id := by
  intro msgs
  induction msgs with
  | nil =>
    intro i cl sk errs evs _
    simp [cloneLoop]
  | cons m rest ih =>
    intro i cl sk errs evs hc
    have hcm := hc m (by simp)
    simp only [cloneLoop, hprog (i + 1)]
    rw [if_neg (by rw [cleanSend_not_skipped hcm]; simp)]
    rcases hpm : processMsg T target mode inc m with ⟨sevs, res⟩
    have hclean := processMsg_clean T target mode inc m hcm
    rw [hpm] at hclean
    simp only [] at hclean
    obtain ⟨hres, hsend⟩ := hclean
    subst hres
    have hi := ih (i + 1) (cl + 1) sk errs
      (evs ++ [TEvent.progressUpd (i + 1)] ++ sevs ++ [TEvent.sleep])
      (fun x hx => hc x (by simp [hx]))
    simp [sendIds_append, sendIds, hsend] at hi ⊢
    rw [hi]

/-- A text-only message (no media) with non-empty text is processed, in
every mode, as a single `send_message` whose outcome is the transport
oracle's answer for its id. -/
theorem processMsg_text_only (T : Transport) (target : Int) (mode : String) (inc : Bool)
    (m : CloneMsg) (hm : m.hasMedia = false) (ht : m.text ≠ "") :
    processMsg T target mode inc m =
      ([TEvent.sendMessage target m.id], T.sendMsgErr m.id) := by
  rw [processMsg]
  by_cases h1 : mode = "forward" <;> by_cases h2 : mode = "encrypted" <;>
    simp [h1, h2, cloneForwardMode, cloneReuploadMode, cloneEncryptedMode, hm, ht]

/-- Loop behaviour when all messages are text-only and exactly the
messages with id `badId` fail: successes and failures are tallied
per message, the error log gains one `errEntry` per failing message,
and nothing is skipped. -/
theorem cloneLoop_single_fail (T : Transport) (target : Int) (mode : String) (inc : Bool)
    (badId : Int) (e : String) (hprog : ∀ n, T.onProgressErr n = none) :
    ∀ (msgs : List CloneMsg) (i cl sk : Nat) (errs : List String) (evs : List TEvent),
      (∀ m ∈ msgs, m.hasMedia = false ∧ m.text ≠ "" ∧
        T.sendMsgErr m.id = (if m.id = badId then some e else none)) →
      (cloneLoop T target mode inc msgs i cl sk errs evs).1 =
        cl + (msgs.filter (fun m => !(m.id == badId))).length ∧
      (cloneLoop T target mode inc msgs i cl sk errs evs).2.1 = sk ∧
      (cloneLoop T target mode inc msgs i cl sk errs evs).2.2.1 =
        errs ++ (msgs.filter (fun m => m.id == badId)).map (fun m => errEntry m.id e) := by
  intro msgs
  induction msgs with
  | nil =>
    intro i cl sk errs evs _
    simp [cloneLoop]
  | cons m rest ih =>
    intro i cl sk errs evs hc
    obtain ⟨hm, ht, herr⟩ := hc m (by simp)
    simp only [cloneLoop, hprog (i + 1)]
    rw [if_neg (by simp [ht])]
    rw [processMsg_text_only T target mode inc m hm ht, herr]
    by_cases hbad : m.id = badId
    · rw [if_pos hbad]
      have hi := ih (i + 1) cl sk (errs ++ [errEntry m.id e])
        (evs ++ [TEvent.progressUpd (i + 1)] ++ [TEvent.sendMessage target m.id])
        (fun x hx => hc x (by simp [hx]))
      simp only [] at hi ⊢
      refine ⟨?_, hi.2.1, ?_⟩
      · rw [hi.1, List.filter_cons]
        simp [hbad]
      · rw [hi.2.2, List.filter_cons]
        simp [hbad]
    · rw [if_neg hbad]
      have hi := ih (i + 1) (cl + 1) sk errs
        (evs ++ [TEvent.progressUpd (i + 1)] ++ [TEvent.sendMessage target m.id] ++
          [TEvent.sleep])
        (fun x hx => hc x (by simp [hx]))
      simp only [] at hi ⊢
      refine ⟨?_, hi.2.1, ?_⟩
      · rw [hi.1, List.filter_cons]
        simp [hbad]
        omega
      · rw [hi.2.2, List.filter_cons]
        simp [hbad]

/-- The text-only partition: failing and non-failing messages together
exhaust the list. -/
theorem length_filter_badId (msgs : List CloneMsg) (badId : Int) :
    (msgs.filter (fun m => !(m.id == badId))).length +
      (msgs.filter (fun m => m.id == badId)).length = msgs.length := by
  induction msgs with
  | nil => rfl
  | cons m t ih =>
    by_cases h : m.id = badId <;> simp [List.filter_cons, h] <;> omega

/-- Counting an id over the projected list counts the messages carrying
it. -/
theorem count_id_eq_length_filter (msgs : List CloneMsg) (badId : Int) :
    (msgs.map CloneMsg.id).count badId =
      (msgs.filter (fun m => m.id == badId)).length := by
  rw [List.count_eq_countP, List.countP_map, List.countP_eq_length_filter]
  rfl

/-- Unfolding of `clone_chat` when the encrypted-mode validation
passes. -/
theorem cloneChat_ok (T : Transport) (history : List CloneMsg) (s t : Int) (mode : String)
    (inc : Bool) (df dt : Option Int) (pw : Option String)
    (h : (decide (mode = "encrypted") && pw.isNone) = false) :
    cloneChat T history s t mode inc df dt pw =
      ((cloneLoop T t mode inc
          ((if df.isSome || dt.isSome then
              (history.take 10000).filter (dateOk df dt)
            else history.take 10000).reverse) 0 0 0 []
          [TEvent.getClient, TEvent.getMessages s]).2.2.2,
       .ok { totalMessages := ((if df.isSome || dt.isSome then
                (history.take 10000).filter (dateOk df dt)
              else history.take 10000).reverse).length,
             clonedCount := (cloneLoop T t mode inc
               ((if df.isSome || dt.isSome then
                   (history.take 10000).filter (dateOk df dt)
                 else history.take 10000).reverse) 0 0 0 []
               [TEvent.getClient, TEvent.getMessages s]).1,
             skippedCount := (cloneLoop T t mode inc
               ((if df.isSome || dt.isSome then
                   (history.take 10000).filter (dateOk df dt)
                 else history.take 10000).reverse) 0 0 0 []
               [TEvent.getClient, TEvent.getMessages s]).2.1,
             errors := (cloneLoop T t mode inc
               ((if df.isSome || dt.isSome then
                   (history.take 10000).filter (dateOk df dt)
                 else history.take 10000).reverse) 0 0 0 []
               [TEvent.getClient, TEvent.getMessages s]).2.2.1 }) := by
  rw [cloneChat, if_neg (by simp [h])]

end CloneService

/-- The date-filter `if` of `clone_chat` is equivalent to always
filtering: with no bounds the filter keeps everything. -/
theorem cloneChat_filter_if (df dt : Option Int) (l : List CloneService.CloneMsg) :
    (if df.isSome || dt.isSome then l.filter (CloneService.dateOk df dt) else l) =
      l.filter (CloneService.dateOk df dt) := by
  cases df <;> cases dt <;> simp [CloneService.dateOk]
  exact (List.filter_eq_self.mpr (fun a _ => rfl)).symm

/-! ## Claim C3: chronological send order -/

/-- C3.  For every source history delivered newest-first by the
transport, `clone_chat` sends the date-filtered messages to the
destination in chronological order, oldest first: the sequence of
destination send calls is exactly the reverse of the transport's
delivery order (restricted to the date filter).  Stated for runs where
every filtered message is cleanly sendable (no transport failures, and
each message has media included or non-empty text) and the progress
callback does not raise. -/
theorem c3_chronological_order (T : CloneService.Transport)
    (history : List CloneService.CloneMsg) (s t : Int) (mode : String) (inc : Bool)
    (df dt : Option Int) (pw : Option String)
    (hmode : (decide (mode = "encrypted") && pw.isNone) = false)
    (hprog : ∀ n, T.onProgressErr n = none)
    (hclean : ∀ m ∈ (history.take 10000).filter (CloneService.dateOk df dt),
      CloneService.cleanSend T inc m) :
    CloneService.sendIds (CloneService.cloneChat T history s t mode inc df dt pw).1 =
      (((history.take 10000).filter (CloneService.dateOk df dt)).reverse).map
        CloneService.CloneMsg.id := by
  rw [CloneService.cloneChat_ok T history s t mode inc df dt pw hmode]
  simp only [cloneChat_filter_if]
  rw [CloneService.cloneLoop_sends T t mode inc hprog _ 0 0 0 []
    [CloneService.TEvent.getClient, CloneService.TEvent.getMessages s]
    (fun m hm => hclean m (List.mem_reverse.mp hm))]
  rfl

/-- C3 witness: three messages delivered newest-first with ids
`[3, 2, 1]`, a `date_from` bound filtering out the oldest, and a media
message in the middle; the destination receives `[2, 3]` — oldest first,
the reverse of delivery order. -/
theorem c3_chronological_order_witness :
    CloneService.sendIds
      (CloneService.cloneChat CloneService.cleanT
        [⟨3, 30, "c", false⟩, ⟨2, 20, "", true⟩, ⟨1, 10, "a", false⟩]
        100 200 "reupload" true (some 15) none none).1 =
      ((([⟨3, 30, "c", false⟩, ⟨2, 20, "", true⟩,
          (⟨1, 10, "a", false⟩ : CloneService.CloneMsg)].take 10000).filter
          (CloneService.dateOk (some 15) none)).reverse).map CloneService.CloneMsg.id :=
  c3_chronological_order CloneService.cleanT
    [⟨3, 30, "c", false⟩, ⟨2, 20, "", true⟩, ⟨1, 10, "a", false⟩]
    100 200 "reupload" true (some 15) none none
    (by decide) (fun _ => rfl) (by decide)

/-! ## Claim C6: partial failure does not abort -/

/-- C6.  If the send of exactly one item out of N raises while all other
items succeed, `clone_chat` does not abort: it completes with
`cloned_count = N - 1`, `skipped_count = 0`, `error_count = 1`, and the
operation's error log is exactly one entry referencing the failed
message's identifier (`"Message {id}: {error}"`).  Stated for text-only
histories (within the fetch limit, no date filter) whose transport
fails exactly on the single message carrying `badId`. -/
theorem c6_partial_failure (T : CloneService.Transport)
    (history : List CloneService.CloneMsg) (s t : Int) (mode : String) (inc : Bool)
    (pw : Option String) (badId : Int) (e : String)
    (hmode : (decide (mode = "encrypted") && pw.isNone) = false)
    (hprog : ∀ n, T.onProgressErr n = none)
    (hlen : history.length ≤ 10000)
    (hmsgs : ∀ m ∈ history, m.hasMedia = false ∧ m.text ≠ "" ∧
      T.sendMsgErr m.id = (if m.id = badId then some e else none))
    (hcount : (history.map CloneService.CloneMsg.id).count badId = 1) :
    (CloneService.cloneChat T history s t mode inc none none pw).2 =
      .ok { totalMessages := history.length,
            clonedCount := history.length - 1,
            skippedCount := 0,
            errors := [CloneService.errEntry badId e] } := by
  rw [CloneService.cloneChat_ok T history s t mode inc none none pw hmode]
  have htake : history.take 10000 = history := List.take_of_length_le hlen
  have hifeq : (if (none : Option Int).isSome || (none : Option Int).isSome then
      (history.take 10000).filter (CloneService.dateOk none none)
    else history.take 10000) = history := by simp [htake]
  rw [hifeq]
  have hres := CloneService.cloneLoop_single_fail T t mode inc badId e hprog
    history.reverse 0 0 0 []
    [CloneService.TEvent.getClient, CloneService.TEvent.getMessages s]
    (fun m hm => hmsgs m (List.mem_reverse.mp hm))
  have hfb : (history.filter (fun m => m.id == badId)).length = 1 := by
    rw [← CloneService.count_id_eq_length_filter]
    exact hcount
  rcases hsplit : history.filter (fun m => m.id == badId) with _ | ⟨mb, tail⟩
  · rw [hsplit] at hfb
    simp at hfb
  · rcases tail with _ | ⟨m2, r2⟩
    · have hmb : mb.id = badId := by
        have hmem : mb ∈ history.filter (fun m => m.id == badId) := by
          rw [hsplit]
          simp
        have h2 := (List.mem_filter.mp hmem).2
        simpa using h2
      have herrs : (history.reverse.filter (fun m => m.id == badId)).map
          (fun m => CloneService.errEntry m.id e) = [CloneService.errEntry badId e] := by
        rw [List.filter_reverse, hsplit]
        simp [hmb]
      have hcl : (history.reverse.filter (fun m => !(m.id == badId))).length =
          history.length - 1 := by
        rw [List.filter_reverse, List.length_reverse]
        have hpart := CloneService.length_filter_badId history badId
        omega
      simp only [Except.ok.injEq, CloneService.CloneSummary.mk.injEq]
      refine ⟨by simp, ?_, hres.2.1, ?_⟩
      · rw [hres.1, hcl]
        omega
      · rw [hres.2.2, herrs]
        simp
    · rw [hsplit] at hfb
      simp at hfb

/-- C6 witness: five text-only messages delivered newest-first with ids
`[5, 4, 3, 2, 1]`; the transport raises on id 3 (the third item in
chronological order).  The run completes with `cloned_count = 4`,
`error_count = 1` and the error entry naming message 3. -/
theorem c6_partial_failure_witness :
    (CloneService.cloneChat (CloneService.failAtT 3 "network error")
      [⟨5, 50, "e", false⟩, ⟨4, 40, "d", false⟩, ⟨3, 30, "c", false⟩,
       ⟨2, 20, "b", false⟩, ⟨1, 10, "a", false⟩]
      100 200 "forward" true none none none).2 =
      .ok { totalMessages := 5, clonedCount := 4, skippedCount := 0,
            errors := [CloneService.errEntry 3 "network error"] } :=
  c6_partial_failure (CloneService.failAtT 3 "network error")
    [⟨5, 50, "e", false⟩, ⟨4, 40, "d", false⟩, ⟨3, 30, "c", false⟩,
     ⟨2, 20, "b", false⟩, ⟨1, 10, "a", false⟩]
    100 200 "forward" true none 3 "network error"
    (by decide) (fun _ => rfl) (by decide) (by decide) (by decide)

/-! ## Claim C4: encrypted mode without a password fails before any
transport call -/

/-- C4.  Calling `clone_chat` with `mode = "encrypted"` and no
`encryption_password` raises the validation `ValueError` before any
transport interaction: the observable call log is empty — no client is
obtained, nothing is fetched, nothing is sent. -/
theorem c4_encrypted_requires_password (T : CloneService.Transport)
    (history : List CloneService.CloneMsg) (sourceChat targetChat : Int) (inc : Bool)
    (df dt : Option Int) :
    CloneService.cloneChat T history sourceChat targetChat "encrypted" inc df dt none =
      ([], .error "encryption_password required for encrypted mode") := by
  rw [CloneService.cloneChat]
  rw [if_pos (by simp)]

/-! ## Claim C10: count accounting invariant -/

/-- C10.  Whenever `clone_chat` reaches its summary, every message of
the filtered chronological list lands in exactly one outcome bucket:
`cloned_count + skipped_count + error_count = total_messages`. -/
theorem c10_count_invariant (T : CloneService.Transport)
    (history : List CloneService.CloneMsg) (s t : Int) (mode : String) (inc : Bool)
    (df dt : Option Int) (pw : Option String) :
    ∀ S : CloneService.CloneSummary,
      (CloneService.cloneChat T history s t mode inc df dt pw).2 = .ok S →
      S.clonedCount + S.skippedCount + S.errors.length = S.totalMessages := by
  intro S hS
  rw [CloneService.cloneChat] at hS
  split at hS
  · simp at hS
  · simp only [Except.ok.injEq] at hS
    subst hS
    simp only []
    rw [CloneService.cloneLoop_counts]
    simp

/-! ## Claim C7: rate limiting and progress -/

/-- C7 counterexample: the claim says the engine sleeps after every
successfully sent *or failed* item.  In a one-message run whose send
raises, the summary reports one error and zero cloned messages, yet the
log contains **zero** sleeps — the `asyncio.sleep` sits inside the `try`
after the send, so a raising send skips it.  The claim predicts one
sleep here. -/
theorem c7_rate_limit_counterexample :
    (CloneService.cloneChat (CloneService.failAtT 1 "FLOOD_WAIT")
      [⟨1, 10, "a", false⟩] 100 200 "forward" true none none none).2 =
      .ok ⟨1, 0, 0, ["Message 1: FLOOD_WAIT"]⟩ ∧
    CloneService.sleepCount
      (CloneService.cloneChat (CloneService.failAtT 1 "FLOOD_WAIT")
        [⟨1, 10, "a", false⟩] 100 200 "forward" true none none none).1 = 0 ∧
    (0 : Nat) ≠ 0 + 1 := by
  refine ⟨by decide, by decide, by decide⟩

/-- C7 as amended.  Within one `clone_chat` invocation the engine sleeps
`delay_seconds` after every **successfully sent** item only — the number
of sleeps equals `cloned_count`; failed and skipped items are not
followed by a sleep.  The operation's progress is updated for each item
of the filtered list, reporting `1, 2, ..., total_messages` in order. -/
theorem c7_rate_limit_amended (T : CloneService.Transport)
    (history : List CloneService.CloneMsg) (s t : Int) (mode : String) (inc : Bool)
    (df dt : Option Int) (pw : Option String) :
    ∀ S : CloneService.CloneSummary,
      (CloneService.cloneChat T history s t mode inc df dt pw).2 = .ok S →
      CloneService.sleepCount
        (CloneService.cloneChat T history s t mode inc df dt pw).1 = S.clonedCount ∧
      CloneService.progressVals
        (CloneService.cloneChat T history s t mode inc df dt pw).1 =
        List.range' 1 S.totalMessages := by
  intro S hS
  rcases hcond : (decide (mode = "encrypted") && pw.isNone) with _ | _
  · rw [CloneService.cloneChat_ok T history s t mode inc df dt pw hcond] at hS ⊢
    simp only [Except.ok.injEq] at hS
    subst hS
    constructor
    · have h := CloneService.cloneLoop_sleeps T t mode inc
        ((if df.isSome || dt.isSome then (history.take 10000).filter
            (CloneService.dateOk df dt)
          else history.take 10000).reverse) 0 0 0 []
        [CloneService.TEvent.getClient, CloneService.TEvent.getMessages s]
      simp [CloneService.sleepCount] at h
      simpa [CloneService.sleepCount] using h
    · have h := CloneService.cloneLoop_progress T t mode inc
        ((if df.isSome || dt.isSome then (history.take 10000).filter
            (CloneService.dateOk df dt)
          else history.take 10000).reverse) 0 0 0 []
        [CloneService.TEvent.getClient, CloneService.TEvent.getMessages s]
      simpa [CloneService.progressVals] using h
  · rw [CloneService.cloneChat, if_pos (by simp [hcond])] at hS
    simp at hS

/-- C7 amended witness: a clean two-message run sleeps twice (once per
cloned message) and reports progress `[1, 2]`. -/
theorem c7_rate_limit_amended_witness :
    CloneService.sleepCount
      (CloneService.cloneChat CloneService.cleanT
        [⟨2, 20, "b", false⟩, ⟨1, 10, "a", false⟩] 100 200 "forward" true
        none none none).1 =
      (CloneService.CloneSummary.mk 2 2 0 []).clonedCount ∧
    CloneService.progressVals
      (CloneService.cloneChat CloneService.cleanT
        [⟨2, 20, "b", false⟩, ⟨1, 10, "a", false⟩] 100 200 "forward" true
        none none none).1 =
      List.range' 1 (CloneService.CloneSummary.mk 2 2 0 []).totalMessages :=
  c7_rate_limit_amended CloneService.cleanT
    [⟨2, 20, "b", false⟩, ⟨1, 10, "a", false⟩] 100 200 "forward" true none none none
    ⟨2, 2, 0, []⟩ (by decide)

/-! ## Claim C8: verify_code failure cleanup -/

/-- C8 divergence witness.  After `request_code` (handle 0) and a failed
`verify_code`, the code disconnects the pending handle and surfaces the
failure — but it does **not** discard the `PendingAuth` entry: the entry
for the phone is still present, and a subsequent `verify_code` for the
same phone does *not* report "No pending authentication" (it retries
`sign_in` on the already-disconnected handle instead).  This contradicts
the claimed cleanup (`del self._pending_auth[phone]` is only executed on
the success path). -/
theorem c8_verify_code_failure_keeps_pending :
    (SessionManager.verify_code SessionManager.badSignIn
      (SessionManager.request_code SessionManager.hashOracle SessionManager.initState
        SessionManager.phoneA none).1 SessionManager.phoneA "11111").2.2 =
      .error "The confirmation code is invalid" ∧
    SessionManager.HEvent.disconnect 0 ∈
      (SessionManager.verify_code SessionManager.badSignIn
        (SessionManager.request_code SessionManager.hashOracle SessionManager.initState
          SessionManager.phoneA none).1 SessionManager.phoneA "11111").2.1 ∧
    SessionManager.pendingGet
      (SessionManager.verify_code SessionManager.badSignIn
        (SessionManager.request_code SessionManager.hashOracle SessionManager.initState
          SessionManager.phoneA none).1 SessionManager.phoneA "11111").1.pendingAuth
      SessionManager.phoneA ≠ none ∧
    (SessionManager.verify_code SessionManager.badSignIn
      (SessionManager.verify_code SessionManager.badSignIn
        (SessionManager.request_code SessionManager.hashOracle SessionManager.initState
          SessionManager.phoneA none).1 SessionManager.phoneA "11111").1
      SessionManager.phoneA "11111").2.2 ≠
      .error "No pending authentication for this phone. Call request_code first." := by
  refine ⟨by decide, by decide, by decide, by decide⟩

/-! ## Claim C9: request_code replacement releases the prior handle -/

/-- C9 divergence witness.  Two `request_code` calls for the same phone:
the first creates and connects handle 0; the second replaces the pending
entry with a new handle 1, but never disconnects handle 0 — no
disconnect of handle 0 appears in either call's operations, and handle 0
is no longer referenced by the manager state (neither cached as a client
nor pending): the connected handle is leaked, contradicting the claimed
release. -/
theorem c9_request_code_replacement_leaks :
    ((SessionManager.pendingGet
        (SessionManager.request_code SessionManager.hashOracle
          (SessionManager.request_code SessionManager.hashOracle SessionManager.initState
            SessionManager.phoneA none).1 SessionManager.phoneA none).1.pendingAuth
        SessionManager.phoneA).map SessionManager.PendingEntry.handle) = some 1 ∧
    SessionManager.HEvent.connect 0 ∈
      (SessionManager.request_code SessionManager.hashOracle SessionManager.initState
        SessionManager.phoneA none).2.1 ∧
    SessionManager.HEvent.disconnect 0 ∉
      (SessionManager.request_code SessionManager.hashOracle SessionManager.initState
        SessionManager.phoneA none).2.1 ++
      (SessionManager.request_code SessionManager.hashOracle
        (SessionManager.request_code SessionManager.hashOracle SessionManager.initState
          SessionManager.phoneA none).1 SessionManager.phoneA none).2.1 ∧
    (0 : Nat) ∉ SessionManager.referencedHandles
      (SessionManager.request_code SessionManager.hashOracle
        (SessionManager.request_code SessionManager.hashOracle SessionManager.initState
          SessionManager.phoneA none).1 SessionManager.phoneA none).1 := by
  refine ⟨by decide, by decide, by decide, by decide⟩

/-- C10 witness: a three-message run with one success, one skip (no text
and no media) and one failing send. -/
theorem c10_count_invariant_witness :
    (CloneService.cloneChat (CloneService.failAtT 2 "boom")
      [⟨3, 30, "c", false⟩, ⟨2, 20, "b", false⟩, ⟨1, 10, "", false⟩]
      100 200 "forward" true none none none).2 =
      .ok ⟨3, 1, 1, ["Message 2: boom"]⟩ ∧
    (1 : Nat) + 1 + 1 = 3 :=
  ⟨by decide,
   c10_count_invariant (CloneService.failAtT 2 "boom")
     [⟨3, 30, "c", false⟩, ⟨2, 20, "b", false⟩, ⟨1, 10, "", false⟩]
     100 200 "forward" true none none none ⟨3, 1, 1, ["Message 2: boom"]⟩ (by decide)⟩

end TGTK
